import Mathlib

/-!
# Verification of the kernel-experience-tools numeric core

Shallow embedding of the C++ numeric core of kernel-experience-tools
(`core.cpp`, `solvers.cpp`, `projection.cpp`, `projections.cpp`) over an
arbitrary linear ordered field `α` (the C++ `double` arithmetic is modelled
by exact field arithmetic; `ℚ` is used for concrete evaluations, `ℝ` is an
instance).

Error exits (`throw std::invalid_argument`, `throw std::runtime_error`) are
modelled with `Except Err`; an out-of-bounds read of element 0 of an empty
array (undefined behaviour in the C++) is modelled by the `none` branch of an
`Option` result.
-/

namespace KernelExperience

variable {α : Type} [LinearOrderedField α]

/-- Error kinds surfaced by the C++ core: `invalidArgument` for
`std::invalid_argument` (unknown method name), `shapeMismatch` for the
batch-size contract violation thrown in `evaluate_kernel_batch`. -/
inductive Err
  | invalidArgument
  | shapeMismatch
  deriving DecidableEq

/-- `dt = t_max / (n_points - 1)`, the uniform grid step (both solvers). -/
def dtOf (t_max : α) (n : ℕ) : α := t_max / ((n : α) - 1)

/-- `generate_time_grid` / the grid loops of both solvers: `t[i] = i * dt`. -/
def generate_time_grid (t_max : α) (n : ℕ) : List α :=
  (List.range n).map (fun i : ℕ => (i : α) * dtOf t_max n)

/-- The vector `unique_tau` of `solve_volterra_batch`:
`unique_tau[k] = k * dt`. -/
def uniqueTau (t_max : α) (n : ℕ) : List α :=
  (List.range n).map (fun k : ℕ => (k : α) * dtOf t_max n)

/-- `evaluate_kernel_batch` (core.cpp:45-63): one call of the batch kernel on
the whole lag vector; throws when the returned length differs from the
input length. -/
def evaluate_kernel_batch (F : List α → List α) (lags : List α) :
    Except Err (List α) :=
  let r := F lags
  if r.length = lags.length then .ok r else .error .shapeMismatch

/-- The per-cell kernel matrix of `solve_volterra_cpp` (solvers.cpp:45-53):
`K_vals[i][j] = kernel(t[i] - t[j])` with `t[i] = i * dt`. -/
def K_scalar (k : α → α) (dt : α) : ℕ → ℕ → α :=
  fun i j => k ((i : α) * dt - (j : α) * dt)

/-- The expanded matrix of `solve_volterra_batch` (core.cpp:112-118):
zero-initialised, lower triangle filled with `K_unique[i-j]`. -/
def K_matrix (Kv : ℕ → α) : ℕ → ℕ → α :=
  fun i j => if j ≤ i then Kv (i - j) else 0

/-- The solution vector built by the main loops: the element at position `i`
is produced from the already-written prefix `x[0..i-1]`. -/
def buildX (g : List α → α) : ℕ → List α
  | 0 => []
  | n + 1 => buildX g n ++ [g (buildX g n)]

/-- One write of the main loops: `x[0] = x0`, and for `i ≥ 1`
`x[i] = x0 - integral` where `integral` reads the prefix `x[0..i-1]`. -/
def nextX (intgr : List α → α) (x0 : α) (prev : List α) : α :=
  if prev.isEmpty then x0 else x0 - intgr prev

/-- Trapezoidal integral of `solve_volterra_cpp` (solvers.cpp:58-66):
weight 1/2 when `j = 0` or `j = i-1`, else 1. `i` is the prefix length. -/
def trapIntegral (K : ℕ → ℕ → α) (dt : α) (prev : List α) : α :=
  ∑ j ∈ Finset.range prev.length,
    (if j = 0 ∨ j = prev.length - 1 then (1 : α) / 2 else 1) *
      K prev.length j * prev.getD j 0 * dt

/-- Simpson integral of `solve_volterra_cpp` (solvers.cpp:68-90): for even
`i`, endpoint terms `K[i][0]*x[0]` and `K[i][i]*x[i-1]`, interior weights
4 (odd `j`) / 2 (even `j`), scaled by `dt/3`; for odd `i`, the trapezoidal
rule. -/
def simpsonIntegral (K : ℕ → ℕ → α) (dt : α) (prev : List α) : α :=
  if prev.length % 2 = 0 then
    (K prev.length 0 * prev.getD 0 0
      + K prev.length prev.length * prev.getD (prev.length - 1) 0
      + ∑ j ∈ Finset.Ico 1 prev.length,
          (if j % 2 = 1 then (4 : α) else 2) * K prev.length j * prev.getD j 0)
      * (dt / 3)
  else trapIntegral K dt prev

/-- Trapezoidal integral of `solve_volterra_batch` (core.cpp:127-145):
`0.5*dt*K_row[0]*x[0]`, interior loop `j = 1 .. i-2`, and (only when
`i > 1`) `0.5*dt*K_row[i-1]*x[i-1]`, with `K_row[j] = K_matrix[i][j]`. -/
def trapIntegralBatch (K : ℕ → ℕ → α) (dt : α) (prev : List α) : α :=
  (1 : α) / 2 * dt * K prev.length 0 * prev.getD 0 0
    + (∑ j ∈ Finset.Ico 1 (prev.length - 1),
        dt * K prev.length j * prev.getD j 0)
    + (if 1 < prev.length then
        (1 : α) / 2 * dt * K prev.length (prev.length - 1) *
          prev.getD (prev.length - 1) 0
      else 0)

/-- Rectangular integral of `solve_volterra_batch` (core.cpp:146-154), used
for every method other than `"trapezoidal"`. -/
def rectIntegralBatch (K : ℕ → ℕ → α) (dt : α) (prev : List α) : α :=
  ∑ j ∈ Finset.range prev.length, dt * K prev.length j * prev.getD j 0

/-- Solution vector of `solve_volterra_cpp` for `method = "trapezoidal"`. -/
def scalarTrapX (k : α → α) (t_max : α) (n : ℕ) (x0 : α) : List α :=
  buildX (nextX (trapIntegral (K_scalar k (dtOf t_max n)) (dtOf t_max n)) x0) n

/-- Solution vector of `solve_volterra_cpp` for `method = "simpson"`. -/
def scalarSimpX (k : α → α) (t_max : α) (n : ℕ) (x0 : α) : List α :=
  buildX (nextX (simpsonIntegral (K_scalar k (dtOf t_max n)) (dtOf t_max n)) x0) n

/-- `solve_volterra_cpp` (solvers.cpp:25-101): per-cell kernel evaluation,
trapezoidal or Simpson loop, `std::invalid_argument` for any other
method string.  No validation of `t_max` or `n_points` is performed. -/
def solve_volterra_cpp (k : α → α) (t_max : α) (n : ℕ) (x0 : α)
    (method : String) : Except Err (List α × List α) :=
  if method = "trapezoidal" then
    .ok (generate_time_grid t_max n, scalarTrapX k t_max n x0)
  else if method = "simpson" then
    .ok (generate_time_grid t_max n, scalarSimpX k t_max n x0)
  else .error .invalidArgument

/-- Solution vector of `solve_volterra_batch` for `method = "trapezoidal"`. -/
def batchTrapX (Kv : ℕ → α) (dt : α) (n : ℕ) (x0 : α) : List α :=
  buildX (nextX (trapIntegralBatch (K_matrix Kv) dt) x0) n

/-- Solution vector of `solve_volterra_batch` for any other method. -/
def batchRectX (Kv : ℕ → α) (dt : α) (n : ℕ) (x0 : α) : List α :=
  buildX (nextX (rectIntegralBatch (K_matrix Kv) dt) x0) n

/-- `solve_volterra_batch` (core.cpp:79-164): batch-evaluates the kernel on
the `n` distinct lags, expands the unique-value vector into the triangular
matrix, then runs the trapezoidal loop when `method = "trapezoidal"` and the
rectangular loop for every other method string.  No validation of `t_max`,
`n_points` or `method` is performed. -/
def solve_volterra_batch (F : List α → List α) (t_max : α) (n : ℕ) (x0 : α)
    (method : String) : Except Err (List α × List α) :=
  match evaluate_kernel_batch F (uniqueTau t_max n) with
  | .error e => .error e
  | .ok Ku =>
    let Kv : ℕ → α := fun m => Ku.getD m 0
    if method = "trapezoidal" then
      .ok (generate_time_grid t_max n, batchTrapX Kv (dtOf t_max n) n x0)
    else
      .ok (generate_time_grid t_max n, batchRectX Kv (dtOf t_max n) n x0)

/-- Running-maximum scan with explicit accumulator: one iteration of the
loops in `fast_envelope` / `fast_envelope_vectorized`
(`if (x[i] > current_max) current_max = x[i]; result[i] = current_max`). -/
def envFrom (cur : α) : List α → List α
  | [] => []
  | y :: ys =>
    (if y > cur then y else cur) :: envFrom (if y > cur then y else cur) ys

/-- Running-minimum scan: one iteration of the loops in
`fast_monotonic_min` / `monotonic_min_vectorized`. -/
def minFrom (cur : α) : List α → List α
  | [] => []
  | y :: ys =>
    (if y < cur then y else cur) :: minFrom (if y < cur then y else cur) ys

/-- `fast_envelope` (projection.cpp:68-87): seeds `current_max = 0.0` and
scans from index 0; it performs no unconditional element access, so it
succeeds on every input (`none` would model an out-of-bounds read). -/
def fast_envelope (xs : List α) : Option (List α) :=
  some (envFrom 0 xs)

/-- `fast_envelope_vectorized` (core.cpp:215-233): reads `x[0]`
unconditionally (`current_max = x[0]; result[0] = current_max`), then scans
from index 1.  On an empty input the read of `x[0]` is out of bounds,
modelled as `none`. -/
def fast_envelope_vectorized : List α → Option (List α)
  | [] => none
  | y :: ys => some (y :: envFrom y ys)

/-- `fast_monotonic_min` (projection.cpp:92-109): reads `n[0]`
unconditionally, then scans from index 0. -/
def fast_monotonic_min : List α → Option (List α)
  | [] => none
  | y :: ys => some (minFrom y (y :: ys))

/-- `monotonic_min_vectorized` (core.cpp:239-257): reads `n[0]`
unconditionally (`current_min = n[0]; result[0] = current_min`), then scans
from index 1. -/
def monotonic_min_vectorized : List α → Option (List α)
  | [] => none
  | y :: ys => some (y :: minFrom y ys)

/-- `prabhakar_core_cpp` (projections.cpp:132-153): clamp each sample below
`1e-15` up to `1e-15`, then return `ti ^ (beta - 1)`; `alpha` and `delta`
are accepted but unused. -/
noncomputable def prabhakar_core_cpp (t : List ℝ) (alpha beta delta : ℝ) :
    List ℝ :=
  t.map (fun ti => (if ti < 1e-15 then (1e-15 : ℝ) else ti) ^ (beta - 1))

/-! ## Basic facts about the loop embedding -/

theorem buildX_length (g : List α → α) (n : ℕ) : (buildX g n).length = n := by
  induction n with
  | zero => rfl
  | succ k ih => simp [buildX, ih]

theorem buildX_getD (g : List α → α) {i n : ℕ} (h : i < n) :
    (buildX g n).getD i 0 = g (buildX g i) := by
  induction n with
  | zero => omega
  | succ k ih =>
    rw [buildX]
    rcases Nat.lt_or_ge i k with hik | hik
    · rw [List.getD_append _ _ _ _ (by rw [buildX_length]; exact hik)]
      exact ih hik
    · have hi : i = k := by omega
      subst hi
      rw [List.getD_append_right _ _ _ _ (by rw [buildX_length])]
      simp [buildX_length]

theorem buildX_congr {g₁ g₂ : List α → α} {n : ℕ}
    (h : ∀ p : List α, p.length < n → g₁ p = g₂ p) :
    ∀ m, m ≤ n → buildX g₁ m = buildX g₂ m := by
  intro m
  induction m with
  | zero => intro _; rfl
  | succ k ih =>
    intro hk
    have hk' : k ≤ n := by omega
    rw [buildX, buildX, ih hk', h _ (by rw [buildX_length]; omega)]

theorem getD_map_range (f : ℕ → α) {m n : ℕ} (h : m < n) :
    ((List.range n).map f).getD m 0 = f m := by
  rw [List.getD_eq_getElem _ _ (by simpa using h)]
  simp

theorem getD_of_forall_zero {l : List α} (h : ∀ a ∈ l, a = 0) (m : ℕ) :
    l.getD m 0 = 0 := by
  rcases Nat.lt_or_ge m l.length with hm | hm
  · rw [List.getD_eq_getElem _ _ hm]
    exact h _ (l.getElem_mem hm)
  · exact List.getD_eq_default _ _ hm

theorem nextX_nil (intgr : List α → α) (x0 : α) : nextX intgr x0 [] = x0 := rfl

theorem nextX_of_length_pos {intgr : List α → α} {x0 : α} {p : List α}
    (h : 0 < p.length) : nextX intgr x0 p = x0 - intgr p := by
  cases p with
  | nil => simp at h
  | cons y ys => rfl

theorem buildX_nextX_zero {intgr : List α → α} {x0 : α}
    (h : ∀ p : List α, intgr p = 0) (n : ℕ) :
    buildX (nextX intgr x0) n = List.replicate n x0 := by
  induction n with
  | zero => rfl
  | succ k ih =>
    rw [buildX, ih, List.replicate_succ']
    cases hk : List.replicate k x0 with
    | nil => simp [nextX]
    | cons y ys => simp [nextX, h]

/-! ## Running-maximum / running-minimum scans -/

theorem ite_gt_eq_max (a b : α) : (if b > a then b else a) = max a b := by
  rcases le_or_lt b a with h | h
  · rw [if_neg (not_lt.mpr h), max_eq_left h]
  · rw [if_pos h, max_eq_right h.le]

theorem envFrom_cons (c y : α) (ys : List α) :
    envFrom c (y :: ys) = max c y :: envFrom (max c y) ys := by
  rw [envFrom, ite_gt_eq_max]

theorem envFrom_length (c : α) (xs : List α) :
    (envFrom c xs).length = xs.length := by
  induction xs generalizing c with
  | nil => rfl
  | cons y ys ih => rw [envFrom_cons]; simp [ih]

theorem envFrom_getD (xs : List α) :
    ∀ (c : α) (i : ℕ), i < xs.length →
      (envFrom c xs).getD i 0 = (xs.take (i + 1)).foldl max c := by
  induction xs with
  | nil => intro c i h; simp at h
  | cons y ys ih =>
    intro c i h
    rw [envFrom_cons]
    cases i with
    | zero => simp
    | succ j =>
      simp only [List.getD_cons_succ, List.take_succ_cons, List.foldl_cons]
      exact ih (max c y) j (by simpa using h)

theorem le_foldl_max (c : α) (l : List α) : c ≤ l.foldl max c := by
  induction l generalizing c with
  | nil => simp
  | cons y ys ih => exact le_trans (le_max_left c y) (ih (max c y))

theorem mem_le_foldl_max {y : α} {l : List α} (hy : y ∈ l) (c : α) :
    y ≤ l.foldl max c := by
  induction l generalizing c with
  | nil => simp at hy
  | cons z zs ih =>
    rcases List.mem_cons.mp hy with h | h
    · subst h
      exact le_trans (le_max_right c y) (le_foldl_max _ _)
    · exact ih h _

theorem foldl_max_take_mono (l : List α) (c : α) {i j : ℕ} (hij : i ≤ j) :
    (l.take (i + 1)).foldl max c ≤ (l.take (j + 1)).foldl max c := by
  have h1 : List.take (i + 1) (List.take (j + 1) l) = List.take (i + 1) l := by
    rw [List.take_take]
    congr 1
    omega
  have hsplit : l.take (j + 1)
      = l.take (i + 1) ++ (l.take (j + 1)).drop (i + 1) := by
    conv_lhs => rw [← List.take_append_drop (i + 1) (l.take (j + 1))]
    rw [h1]
  rw [hsplit, List.foldl_append]
  exact le_foldl_max _ _

theorem foldl_max_zero_of_neg {l : List α} (h : ∀ y ∈ l, y < 0) :
    l.foldl max 0 = 0 := by
  induction l with
  | nil => rfl
  | cons y ys ih =>
    have hy : y < 0 := h y (List.mem_cons_self _ _)
    rw [List.foldl_cons, max_eq_left hy.le]
    exact ih (fun z hz => h z (List.mem_cons_of_mem _ hz))

theorem minFrom_cons (c y : α) (ys : List α) :
    minFrom c (y :: ys) = min c y :: minFrom (min c y) ys := by
  have : (if y < c then y else c) = min c y := by
    rcases le_or_lt c y with h | h
    · rw [if_neg (not_lt.mpr h), min_eq_left h]
    · rw [if_pos h, min_eq_right h.le]
  rw [minFrom, this]

/-! ## Claim C2 — envelope semantics -/

/-- C2 (amended).  `fast_envelope` (projection.cpp) seeds its running
maximum at `0.0`: `result[i] = max(0, x[0..i])`, it is non-decreasing, it
dominates `0` and every prefix element, and an all-negative input yields an
all-zero envelope.  `fast_envelope_vectorized` (core.cpp) instead seeds at
`x[0]`: `result[i] = max(x[0..i])`, which is *not* clamped at `0.0`. -/
theorem C2_envelope_running_max :
    (∀ (xs : List α) (i : ℕ), i < xs.length →
      ((fast_envelope xs).getD []).getD i 0 = (xs.take (i + 1)).foldl max 0)
    ∧ (∀ (xs : List α) (i j : ℕ), i ≤ j → j < xs.length →
      ((fast_envelope xs).getD []).getD i 0
        ≤ ((fast_envelope xs).getD []).getD j 0)
    ∧ (∀ (xs : List α) (i : ℕ), i < xs.length →
      0 ≤ ((fast_envelope xs).getD []).getD i 0
        ∧ ∀ y ∈ xs.take (i + 1), y ≤ ((fast_envelope xs).getD []).getD i 0)
    ∧ (∀ xs : List α, (∀ y ∈ xs, y < 0) → ∀ i : ℕ, i < xs.length →
      ((fast_envelope xs).getD []).getD i 0 = 0)
    ∧ (∀ (y : α) (ys : List α) (i : ℕ), i < (y :: ys).length →
      ((fast_envelope_vectorized (y :: ys)).getD []).getD i 0
        = ((y :: ys).take (i + 1)).foldl max y) := by
  have hvec : ∀ (y : α) (ys : List α),
      (fast_envelope_vectorized (y :: ys)).getD [] = envFrom y (y :: ys) := by
    intro y ys
    rw [fast_envelope_vectorized, Option.getD_some, envFrom_cons, max_self]
  refine ⟨?_, ?_, ?_, ?_, ?_⟩
  · intro xs i h
    rw [fast_envelope, Option.getD_some, envFrom_getD xs 0 i h]
  · intro xs i j hij hj
    rw [fast_envelope, Option.getD_some, envFrom_getD xs 0 i (by omega),
      envFrom_getD xs 0 j hj]
    exact foldl_max_take_mono xs 0 hij
  · intro xs i h
    rw [fast_envelope, Option.getD_some, envFrom_getD xs 0 i h]
    exact ⟨le_foldl_max 0 _, fun y hy => mem_le_foldl_max hy 0⟩
  · intro xs hneg i h
    rw [fast_envelope, Option.getD_some, envFrom_getD xs 0 i h]
    exact foldl_max_zero_of_neg
      (fun y hy => hneg y (List.mem_of_mem_take hy))
  · intro y ys i h
    rw [hvec, envFrom_getD (y :: ys) y i h]

/-- C2 witness: the zero-seeded characterization of `fast_envelope` on
`[3, -2]` at index 1, and the `x[0]`-seeded characterization of
`fast_envelope_vectorized` on `[-1, -2]` at index 1. -/
theorem C2_envelope_running_max_witness :
    ((fast_envelope [(3 : ℚ), -2]).getD []).getD 1 0
      = (([(3 : ℚ), -2]).take (1 + 1)).foldl max 0
    ∧ ((fast_envelope_vectorized ((-1 : ℚ) :: [-2])).getD []).getD 1 0
      = (((-1 : ℚ) :: [-2]).take (1 + 1)).foldl max (-1) :=
  ⟨C2_envelope_running_max.1 [(3 : ℚ), -2] 1 (by norm_num),
   C2_envelope_running_max.2.2.2.2 (-1 : ℚ) [-2] 1 (by norm_num)⟩

/-- C2 counterexample: the claim asserts
`envelope(x)[i] = max(0.0, x[0], ..., x[i])` for the envelope of both
builds; `fast_envelope_vectorized` on the all-negative input `[-1]` returns
`[-1]`, not `[0]`. -/
theorem C2_envelope_counterexample :
    fast_envelope_vectorized [(-1 : ℚ)] = some [-1]
    ∧ ((fast_envelope_vectorized [(-1 : ℚ)]).getD []).getD 0 0 ≠ 0 := by
  constructor
  · rfl
  · norm_num [fast_envelope_vectorized, envFrom]

/-! ## Claim C10 — unconditional element-0 reads -/

/-- C10 (amended).  `fast_envelope_vectorized`, `fast_monotonic_min` and
`monotonic_min_vectorized` read element 0 before their scans: an empty
input reaches an out-of-bounds access (`none`), and on a non-empty input
every access is in bounds (`isSome`).  `fast_envelope` seeds at `0.0`
without touching element 0, so it succeeds on every input, including the
empty one. -/
theorem C10_element0_reads :
    (∀ xs : List α, (fast_envelope xs).isSome = true)
    ∧ fast_envelope_vectorized ([] : List α) = none
    ∧ fast_monotonic_min ([] : List α) = none
    ∧ monotonic_min_vectorized ([] : List α) = none
    ∧ (∀ (y : α) (ys : List α),
      (fast_envelope_vectorized (y :: ys)).isSome = true
        ∧ (fast_monotonic_min (y :: ys)).isSome = true
        ∧ (monotonic_min_vectorized (y :: ys)).isSome = true) := by
  exact ⟨fun xs => rfl, rfl, rfl, rfl, fun y ys => ⟨rfl, rfl, rfl⟩⟩

/-- C10 counterexample: the claim asserts that *every* one of the four
scans reads element 0 unconditionally and hence goes out of bounds on an
empty input; `fast_envelope` on the empty input performs no access and
returns the empty envelope. -/
theorem C10_counterexample :
    fast_envelope ([] : List ℚ) = some [] ∧
      fast_envelope ([] : List ℚ) ≠ none := by
  exact ⟨rfl, by simp [fast_envelope]⟩

/-! ## Claim C8 — simplified Prabhakar core -/

/-- C8 (confirmed).  `prabhakar_core_cpp` returns, at each index,
`clamp(t[i]) ^ (beta - 1)` where `clamp` replaces values below `1e-15` by
`1e-15`; the result has the input's length and is independent of `alpha`
and `delta` (the embedding is a pure function, so the input sequence is
never mutated). -/
theorem C8_prabhakar_core :
    ∀ (t : List ℝ) (a a' b d d' : ℝ),
      prabhakar_core_cpp t a b d = prabhakar_core_cpp t a' b d'
      ∧ (prabhakar_core_cpp t a b d).length = t.length
      ∧ ∀ i : ℕ, i < t.length →
        (prabhakar_core_cpp t a b d).getD i 0
          = (if t.getD i 0 < 1e-15 then (1e-15 : ℝ) else t.getD i 0) ^ (b - 1) := by
  intro t a a' b d d'
  refine ⟨rfl, by simp [prabhakar_core_cpp], ?_⟩
  intro i hi
  have hi' : i < (prabhakar_core_cpp t a b d).length := by
    simpa [prabhakar_core_cpp] using hi
  rw [List.getD_eq_getElem _ _ hi', List.getD_eq_getElem _ _ hi]
  simp [prabhakar_core_cpp]

/-- C8 witness: the pointwise characterization applied to the concrete
input `t = [2]`, `alpha = 5`, `beta = 1`, `delta = 7` at index 0. -/
theorem C8_prabhakar_core_witness :
    (0 : ℕ) < ([(2 : ℝ)] : List ℝ).length
    ∧ (prabhakar_core_cpp [(2 : ℝ)] 5 1 7).getD 0 0
      = (if ([(2 : ℝ)] : List ℝ).getD 0 0 < 1e-15 then (1e-15 : ℝ)
         else ([(2 : ℝ)] : List ℝ).getD 0 0) ^ ((1 : ℝ) - 1) :=
  ⟨by simp, (C8_prabhakar_core [(2 : ℝ)] 5 5 1 7 7).2.2 0 (by simp)⟩

/-! ## Facts about the batch kernel adapter and the two solvers -/

theorem evaluate_kernel_batch_map (k : α → α) (lags : List α) :
    evaluate_kernel_batch (fun l => l.map k) lags = .ok (lags.map k) := by
  simp [evaluate_kernel_batch]

theorem length_uniqueTau (t_max : α) (n : ℕ) : (uniqueTau t_max n).length = n := by
  rw [uniqueTau, List.length_map, List.length_range]

theorem batch_Kv_eq (k : α → α) (t_max : α) {m n : ℕ} (h : m < n) :
    ((uniqueTau t_max n).map k).getD m 0 = k ((m : α) * dtOf t_max n) := by
  rw [uniqueTau, List.map_map]
  exact getD_map_range (k ∘ fun i : ℕ => (i : α) * dtOf t_max n) h

theorem solve_volterra_batch_map_trap (k : α → α) (t_max : α) (n : ℕ) (x0 : α) :
    solve_volterra_batch (fun l => l.map k) t_max n x0 "trapezoidal"
      = .ok (generate_time_grid t_max n,
          batchTrapX (fun m => ((uniqueTau t_max n).map k).getD m 0)
            (dtOf t_max n) n x0) := by
  rw [solve_volterra_batch, evaluate_kernel_batch_map]
  simp

theorem solve_volterra_batch_map_rect (k : α → α) (t_max : α) (n : ℕ) (x0 : α)
    {method : String} (h : method ≠ "trapezoidal") :
    solve_volterra_batch (fun l => l.map k) t_max n x0 method
      = .ok (generate_time_grid t_max n,
          batchRectX (fun m => ((uniqueTau t_max n).map k).getD m 0)
            (dtOf t_max n) n x0) := by
  rw [solve_volterra_batch, evaluate_kernel_batch_map]
  simp [h]

/-! ## Claim C3 — unknown method names -/

/-- C3 (amended).  The scalar per-call build (`solve_volterra_cpp`) rejects
every method string other than `"trapezoidal"` and `"simpson"` with an
InvalidArgument error and returns no result; the batch build
(`solve_volterra_batch`) accepts any method string and runs its rectangular
rule for everything other than `"trapezoidal"`. -/
theorem C3_unknown_method :
    (∀ (k : α → α) (t_max : α) (n : ℕ) (x0 : α) (method : String),
      method ≠ "trapezoidal" → method ≠ "simpson" →
      solve_volterra_cpp k t_max n x0 method = .error .invalidArgument)
    ∧ (∀ (k : α → α) (t_max : α) (n : ℕ) (x0 : α) (method : String),
      method ≠ "trapezoidal" →
      ∃ p, solve_volterra_batch (fun l => l.map k) t_max n x0 method = .ok p) := by
  constructor
  · intro k t_max n x0 method h1 h2
    simp [solve_volterra_cpp, h1, h2]
  · intro k t_max n x0 method h1
    exact ⟨_, solve_volterra_batch_map_rect k t_max n x0 h1⟩

/-- C3 witness: both parts applied at the unknown method `"newton"`. -/
theorem C3_unknown_method_witness :
    solve_volterra_cpp (fun x : ℚ => x) 1 2 1 "newton" = .error .invalidArgument
    ∧ ∃ p, solve_volterra_batch (fun l => l.map (fun x : ℚ => x)) 1 2 1 "newton"
        = .ok p :=
  ⟨C3_unknown_method.1 (fun x : ℚ => x) 1 2 1 "newton" (by decide) (by decide),
   C3_unknown_method.2 (fun x : ℚ => x) 1 2 1 "newton" (by decide)⟩

/-- C3 counterexample: the claim asserts that *both* builds fail with an
InvalidArgument error on every unknown method name; the batch build on
method `"newton"` (kernel `K ≡ 1`, `t_max = 1`, `n_points = 2`, `x0 = 1`)
returns the completed result `([0, 1], [1, 0])` instead. -/
theorem C3_counterexample :
    solve_volterra_batch (fun l => l.map (fun _ : ℚ => 1)) 1 2 1 "newton"
      = .ok ([0, 1], [1, 0]) := by
  rw [solve_volterra_batch_map_rect _ _ _ _ (by decide)]
  norm_num [generate_time_grid, batchRectX, buildX, nextX, rectIntegralBatch,
    K_matrix, uniqueTau, dtOf, Finset.sum_range_succ, List.getD,
    List.range_succ]

/-! ## Claim C5 — missing argument validation -/

/-- C5 (amended).  Neither build validates its arguments: with any
`n_points ≥ 2` and any `t_max` — in particular non-positive `t_max`, which
the claim says must be rejected — both solvers complete and return a full
grid and solution with no InvalidArgument error. -/
theorem C5_no_argument_validation :
    ∀ (k : α → α) (t_max : α) (n : ℕ) (x0 : α), t_max ≤ 0 → 2 ≤ n →
      (∃ p, solve_volterra_cpp k t_max n x0 "trapezoidal" = .ok p)
      ∧ (∃ p, solve_volterra_batch (fun l => l.map k) t_max n x0 "trapezoidal"
          = .ok p) := by
  intro k t_max n x0 _ _
  exact ⟨⟨_, by rw [solve_volterra_cpp]; rfl⟩,
         ⟨_, solve_volterra_batch_map_trap k t_max n x0⟩⟩

/-- C5 witness: both solvers succeed at the invalid input `t_max = -1`
(with `n_points = 3`), which the claim says must abort. -/
theorem C5_no_argument_validation_witness :
    (∃ p, solve_volterra_cpp (fun _ : ℚ => 0) (-1) 3 1 "trapezoidal" = .ok p)
    ∧ ∃ p, solve_volterra_batch (fun l => l.map (fun _ : ℚ => 0)) (-1) 3 1
        "trapezoidal" = .ok p :=
  C5_no_argument_validation (fun _ : ℚ => 0) (-1) 3 1 (by norm_num) (by norm_num)

/-- C5 counterexample: with `t_max = -1 < 0` and `n_points = 3` — inputs
the claim says fail with an InvalidArgument error and no output — the
scalar solver returns the complete result
`([0, -1/2, -1], [1, 1, 1])` for the zero kernel. -/
theorem C5_counterexample :
    solve_volterra_cpp (fun _ : ℚ => 0) (-1) 3 1 "trapezoidal"
      = .ok ([0, -1/2, -1], [1, 1, 1]) := by
  rw [solve_volterra_cpp, if_pos rfl]
  norm_num [generate_time_grid, scalarTrapX, buildX, nextX, trapIntegral,
    K_scalar, dtOf, Finset.sum_range_succ, List.getD, List.range_succ]

/-! ## Claim C7 — batch kernel evaluation contract -/

/-- C7 (confirmed).  `evaluate_kernel_batch` returns the kernel's values in
input order (`values[i] = kernel(lags[i])` for the element-wise lift of a
scalar kernel), fails with a ShapeMismatch error exactly when the batch
kernel returns a result whose length differs from the input length, and
such a failure aborts the calling `solve_volterra_batch` with the same
error and no result. -/
theorem C7_evaluate_kernel_batch_contract :
    (∀ (k : α → α) (lags : List α),
      evaluate_kernel_batch (fun l => l.map k) lags = .ok (lags.map k))
    ∧ (∀ (k : α → α) (lags : List α) (i : ℕ), i < lags.length →
      (lags.map k).getD i 0 = k (lags.getD i 0))
    ∧ (∀ (F : List α → List α) (lags : List α),
      evaluate_kernel_batch F lags = .error .shapeMismatch
        ↔ (F lags).length ≠ lags.length)
    ∧ (∀ (F : List α → List α) (t_max : α) (n : ℕ) (x0 : α) (method : String),
      (F (uniqueTau t_max n)).length ≠ n →
      solve_volterra_batch F t_max n x0 method = .error .shapeMismatch) := by
  refine ⟨evaluate_kernel_batch_map, ?_, ?_, ?_⟩
  · intro k lags i h
    rw [List.getD_eq_getElem _ _ (by simpa using h), List.getD_eq_getElem _ _ h]
    simp
  · intro F lags
    by_cases hl : (F lags).length = lags.length <;> simp [evaluate_kernel_batch, hl]
  · intro F t_max n x0 method h
    have herr : evaluate_kernel_batch F (uniqueTau t_max n)
        = .error .shapeMismatch := by
      rw [evaluate_kernel_batch]
      simp [length_uniqueTau, h]
    rw [solve_volterra_batch, herr]

/-- C7 witness: order-preserving values for the kernel `x ↦ x + 1` on
`[2, 3]`, and the ShapeMismatch abort of a batch solve whose kernel returns
an empty result for a 2-lag request. -/
theorem C7_evaluate_kernel_batch_contract_witness :
    ([(2 : ℚ), 3].map (fun x : ℚ => x + 1)).getD 0 0
      = (fun x : ℚ => x + 1) ([(2 : ℚ), 3].getD 0 0)
    ∧ solve_volterra_batch (fun _ : List ℚ => []) 1 2 1 "trapezoidal"
        = .error .shapeMismatch :=
  ⟨C7_evaluate_kernel_batch_contract.2.1 (fun x : ℚ => x + 1) [2, 3] 0 (by norm_num),
   C7_evaluate_kernel_batch_contract.2.2.2 (fun _ : List ℚ => []) 1 2 1
     "trapezoidal" (by simp [length_uniqueTau])⟩

/-! ## Claim C6 — identically-zero kernel -/

theorem trapIntegral_of_K_zero {K : ℕ → ℕ → α} (hK : ∀ i j, K i j = 0)
    (dt : α) (p : List α) : trapIntegral K dt p = 0 := by
  rw [trapIntegral]
  apply Finset.sum_eq_zero
  intro j _
  rw [hK]
  ring

theorem simpsonIntegral_of_K_zero {K : ℕ → ℕ → α} (hK : ∀ i j, K i j = 0)
    (dt : α) (p : List α) : simpsonIntegral K dt p = 0 := by
  rw [simpsonIntegral]
  split
  · have hs : (∑ j ∈ Finset.Ico 1 p.length,
        (if j % 2 = 1 then (4 : α) else 2) * K p.length j * p.getD j 0) = 0 := by
      apply Finset.sum_eq_zero
      intro j _
      rw [hK]
      ring
    rw [hs, hK, hK]
    ring
  · exact trapIntegral_of_K_zero hK dt p

theorem trapIntegralBatch_of_K_zero {K : ℕ → ℕ → α} (hK : ∀ i j, K i j = 0)
    (dt : α) (p : List α) : trapIntegralBatch K dt p = 0 := by
  rw [trapIntegralBatch]
  have hs : (∑ j ∈ Finset.Ico 1 (p.length - 1),
      dt * K p.length j * p.getD j 0) = 0 := by
    apply Finset.sum_eq_zero
    intro j _
    rw [hK]
    ring
  rw [hs, hK]
  split
  · rw [hK]; ring
  · ring

theorem rectIntegralBatch_of_K_zero {K : ℕ → ℕ → α} (hK : ∀ i j, K i j = 0)
    (dt : α) (p : List α) : rectIntegralBatch K dt p = 0 := by
  rw [rectIntegralBatch]
  apply Finset.sum_eq_zero
  intro j _
  rw [hK]
  ring

theorem zero_kernel_Kv (t_max : α) (n m : ℕ) :
    ((uniqueTau t_max n).map (fun _ : α => (0 : α))).getD m 0 = 0 := by
  apply getD_of_forall_zero
  intro a ha
  rcases List.mem_map.mp ha with ⟨b, _, hb⟩
  exact hb.symm

/-- C6 (confirmed).  For `t_max > 0`, `n_points ≥ 2`, any `x0` and either
quadrature rule, the identically-zero kernel yields the constant solution
`x[i] = x0`, in both the scalar per-call build and the batch build (where
`"simpson"` selects the rectangular loop). -/
theorem C6_zero_kernel :
    ∀ (t_max x0 : α) (n : ℕ) (method : String), 0 < t_max → 2 ≤ n →
      method = "trapezoidal" ∨ method = "simpson" →
      solve_volterra_cpp (fun _ : α => 0) t_max n x0 method
        = .ok (generate_time_grid t_max n, List.replicate n x0)
      ∧ solve_volterra_batch (fun l : List α => l.map (fun _ => 0)) t_max n x0
          method
        = .ok (generate_time_grid t_max n, List.replicate n x0) := by
  intro t_max x0 n method _ _ hm
  have hKs : ∀ i j, K_scalar (fun _ : α => 0) (dtOf t_max n) i j = 0 :=
    fun i j => rfl
  have hKm : ∀ i j,
      K_matrix (fun m => ((uniqueTau t_max n).map (fun _ : α => (0 : α))).getD m 0)
        i j = 0 := by
    intro i j
    rw [K_matrix]
    split
    · exact zero_kernel_Kv t_max n (i - j)
    · rfl
  rcases hm with hm | hm <;> subst hm
  · constructor
    · rw [solve_volterra_cpp, if_pos rfl, scalarTrapX,
        buildX_nextX_zero (fun p => trapIntegral_of_K_zero hKs _ p)]
    · rw [solve_volterra_batch_map_trap, batchTrapX,
        buildX_nextX_zero (fun p => trapIntegralBatch_of_K_zero hKm _ p)]
  · constructor
    · rw [solve_volterra_cpp, if_neg (by decide), if_pos rfl, scalarSimpX,
        buildX_nextX_zero (fun p => simpsonIntegral_of_K_zero hKs _ p)]
    · rw [solve_volterra_batch_map_rect _ _ _ _ (by decide), batchRectX,
        buildX_nextX_zero (fun p => rectIntegralBatch_of_K_zero hKm _ p)]

/-- C6 witness: the zero kernel at `t_max = 1`, `n_points = 2`, `x0 = 5`,
trapezoidal rule. -/
theorem C6_zero_kernel_witness :
    solve_volterra_cpp (fun _ : ℚ => 0) 1 2 5 "trapezoidal"
      = .ok (generate_time_grid 1 2, List.replicate 2 5)
    ∧ solve_volterra_batch (fun l : List ℚ => l.map (fun _ => 0)) 1 2 5
        "trapezoidal"
      = .ok (generate_time_grid 1 2, List.replicate 2 5) :=
  C6_zero_kernel 1 5 2 "trapezoidal" (by norm_num) (by norm_num) (Or.inl rfl)

/-! ## Claim C9 — batch solver on non-trapezoidal methods -/

/-- C9 (confirmed).  The batch-build solver accepts every method string
other than `"trapezoidal"` — including `"simpson"` — without error and
executes the rectangular rule
`x[i] = x0 - Σ_{j<i} dt · K[(i-j)·dt] · x[j]`: no Simpson weighting, no
odd-step fallback, no rejection of unknown names. -/
theorem C9_rectangular_rule :
    ∀ (k : α → α) (t_max : α) (n : ℕ) (x0 : α) (method : String),
      method ≠ "trapezoidal" →
      solve_volterra_batch (fun l => l.map k) t_max n x0 method
        = .ok (generate_time_grid t_max n,
            batchRectX (fun m => ((uniqueTau t_max n).map k).getD m 0)
              (dtOf t_max n) n x0)
      ∧ ∀ i : ℕ, 1 ≤ i → i < n →
        (batchRectX (fun m => ((uniqueTau t_max n).map k).getD m 0)
            (dtOf t_max n) n x0).getD i 0
          = x0 - ∑ j ∈ Finset.range i,
              dtOf t_max n * k (((i - j : ℕ) : α) * dtOf t_max n) *
                (batchRectX (fun m => ((uniqueTau t_max n).map k).getD m 0)
                  (dtOf t_max n) n x0).getD j 0 := by
  intro k t_max n x0 method hmethod
  refine ⟨solve_volterra_batch_map_rect k t_max n x0 hmethod, ?_⟩
  intro i h1 h2
  rw [batchRectX, buildX_getD _ h2,
    nextX_of_length_pos (by rw [buildX_length]; omega)]
  congr 1
  rw [rectIntegralBatch, buildX_length]
  apply Finset.sum_congr rfl
  intro j hj
  have hji : j < i := Finset.mem_range.mp hj
  rw [K_matrix, if_pos hji.le, batch_Kv_eq k t_max (by omega),
    buildX_getD _ hji, buildX_getD _ (by omega : j < n)]

/-- C9 witness: the batch solver at the method string `"simpson"` with the
constant kernel `K ≡ 1`, `t_max = 1`, `n_points = 2`, `x0 = 1`, evaluated
at step `i = 1`. -/
theorem C9_rectangular_rule_witness :
    solve_volterra_batch (fun l => l.map (fun _ : ℚ => 1)) 1 2 1 "simpson"
      = .ok (generate_time_grid 1 2,
          batchRectX (fun m => ((uniqueTau 1 2).map (fun _ : ℚ => 1)).getD m 0)
            (dtOf 1 2) 2 1)
    ∧ (batchRectX (fun m => ((uniqueTau (1 : ℚ) 2).map (fun _ : ℚ => 1)).getD m 0)
          (dtOf (1 : ℚ) 2) 2 1).getD 1 0
        = (1 : ℚ) - ∑ j ∈ Finset.range 1,
            dtOf (1 : ℚ) 2 * (fun _ : ℚ => 1) (((1 - j : ℕ) : ℚ) * dtOf (1 : ℚ) 2) *
              (batchRectX (fun m => ((uniqueTau (1 : ℚ) 2).map (fun _ : ℚ => 1)).getD m 0)
                (dtOf (1 : ℚ) 2) 2 1).getD j 0 :=
  ⟨(C9_rectangular_rule (fun _ : ℚ => 1) 1 2 1 "simpson" (by decide)).1,
   (C9_rectangular_rule (fun _ : ℚ => 1) 1 2 1 "simpson" (by decide)).2 1
     le_rfl (by norm_num)⟩

/-! ## Claim C4 — Simpson step of the scalar solver -/

/-- C4 (confirmed).  In the scalar solver with `method = "simpson"`, for
each step `1 ≤ i < n`: when `i` is even,
`x[i] = x0 - (dt/3)·(K[i][0]·x[0] + K[i][i]·x[i-1] + Σ_{j=1}^{i-1} w_j·K[i][j]·x[j])`
with `w_j = 4` for odd `j` and `w_j = 2` for even `j`; when `i` is odd, the
step uses the trapezoidal weights (1/2 at `j = 0` and `j = i-1`, 1
for interior `j`). -/
theorem C4_simpson_step :
    ∀ (k : α → α) (t_max : α) (n : ℕ) (x0 : α) (i : ℕ), 1 ≤ i → i < n →
      solve_volterra_cpp k t_max n x0 "simpson"
        = .ok (generate_time_grid t_max n, scalarSimpX k t_max n x0)
      ∧ (i % 2 = 0 →
          (scalarSimpX k t_max n x0).getD i 0
            = x0 - dtOf t_max n / 3 *
                (K_scalar k (dtOf t_max n) i 0 * (scalarSimpX k t_max n x0).getD 0 0
                 + K_scalar k (dtOf t_max n) i i *
                     (scalarSimpX k t_max n x0).getD (i - 1) 0
                 + ∑ j ∈ Finset.Ico 1 i,
                     (if j % 2 = 1 then (4 : α) else 2) *
                       K_scalar k (dtOf t_max n) i j *
                       (scalarSimpX k t_max n x0).getD j 0))
      ∧ (i % 2 = 1 →
          (scalarSimpX k t_max n x0).getD i 0
            = x0 - ∑ j ∈ Finset.range i,
                (if j = 0 ∨ j = i - 1 then (1 : α) / 2 else 1) *
                  K_scalar k (dtOf t_max n) i j *
                  (scalarSimpX k t_max n x0).getD j 0 * dtOf t_max n) := by
  intro k t_max n x0 i h1 h2
  refine ⟨by rw [solve_volterra_cpp, if_neg (by decide), if_pos rfl], ?_, ?_⟩
  all_goals
    have hstep : (scalarSimpX k t_max n x0).getD i 0
        = x0 - simpsonIntegral (K_scalar k (dtOf t_max n)) (dtOf t_max n)
            (buildX (nextX (simpsonIntegral (K_scalar k (dtOf t_max n))
              (dtOf t_max n)) x0) i) := by
      rw [scalarSimpX, buildX_getD _ h2,
        nextX_of_length_pos (by rw [buildX_length]; omega)]
    have hpd : ∀ j, j < i →
        (buildX (nextX (simpsonIntegral (K_scalar k (dtOf t_max n))
            (dtOf t_max n)) x0) i).getD j 0
          = (scalarSimpX k t_max n x0).getD j 0 := by
      intro j hj
      rw [scalarSimpX, buildX_getD _ (by omega : j < n), buildX_getD _ hj]
  · intro hev
    rw [hstep, simpsonIntegral]
    simp only [buildX_length]
    rw [if_pos hev, hpd 0 (by omega), hpd (i - 1) (by omega),
      Finset.sum_congr rfl (fun j hj =>
        by rw [hpd j (Finset.mem_Ico.mp hj).2])]
    ring
  · intro hodd
    rw [hstep, simpsonIntegral]
    simp only [buildX_length]
    rw [if_neg (by omega), trapIntegral]
    simp only [buildX_length]
    rw [Finset.sum_congr rfl (fun j hj =>
      by rw [hpd j (Finset.mem_range.mp hj)])]

/-- C4 witness: the even branch at `i = 2` for the constant kernel
`K ≡ 1`, `t_max = 3`, `n_points = 4`, `x0 = 1`. -/
theorem C4_simpson_step_witness :
    (scalarSimpX (fun _ : ℚ => 1) 3 4 1).getD 2 0
      = (1 : ℚ) - dtOf (3 : ℚ) 4 / 3 *
          (K_scalar (fun _ : ℚ => 1) (dtOf (3 : ℚ) 4) 2 0 *
              (scalarSimpX (fun _ : ℚ => 1) 3 4 1).getD 0 0
           + K_scalar (fun _ : ℚ => 1) (dtOf (3 : ℚ) 4) 2 2 *
              (scalarSimpX (fun _ : ℚ => 1) 3 4 1).getD (2 - 1) 0
           + ∑ j ∈ Finset.Ico 1 2,
              (if j % 2 = 1 then (4 : ℚ) else 2) *
                K_scalar (fun _ : ℚ => 1) (dtOf (3 : ℚ) 4) 2 j *
                (scalarSimpX (fun _ : ℚ => 1) 3 4 1).getD j 0) :=
  (C4_simpson_step (fun _ : ℚ => 1) 3 4 1 2 (by norm_num) (by norm_num)).2.1
    (by norm_num)

/-! ## Claim C1 — batch vs scalar solver -/

theorem Km_eq_Ks (k : α → α) (t_max : α) {n i j : ℕ} (hj : j ≤ i) (hi : i < n) :
    K_matrix (fun m => ((uniqueTau t_max n).map k).getD m 0) i j
      = K_scalar k (dtOf t_max n) i j := by
  rw [K_matrix, if_pos hj, batch_Kv_eq k t_max (by omega : i - j < n), K_scalar]
  congr 1
  rw [Nat.cast_sub hj]
  ring

theorem trap_sum_eq (K X : ℕ → α) (dt : α) {i : ℕ} (hi : 1 ≤ i) :
    (1 : α) / 2 * dt * K 0 * X 0
      + (∑ j ∈ Finset.Ico 1 (i - 1), dt * K j * X j)
      + (if 1 < i then (1 : α) / 2 * dt * K (i - 1) * X (i - 1) else 0)
      = ∑ j ∈ Finset.range i,
          (if j = 0 ∨ j = i - 1 then (1 : α) / 2 else 1) * K j * X j * dt := by
  obtain hi1 | ⟨m, rfl⟩ : i = 1 ∨ ∃ m, i = m + 2 := by
    rcases Nat.lt_or_ge i 2 with h | h
    · exact Or.inl (by omega)
    · exact Or.inr ⟨i - 2, by omega⟩
  · subst hi1
    simp
    ring
  · rw [show m + 2 - 1 = m + 1 from rfl, Finset.sum_range_succ,
      Finset.sum_range_succ', Finset.sum_Ico_eq_sum_range,
      show m + 1 - 1 = m from rfl]
    have hint : ∀ j ∈ Finset.range m,
        (if j + 1 = 0 ∨ j + 1 = m + 1 then (1 : α) / 2 else 1) *
            K (j + 1) * X (j + 1) * dt
          = dt * K (1 + j) * X (1 + j) := by
      intro j hj
      have hj' := Finset.mem_range.mp hj
      rw [if_neg (by omega), Nat.add_comm 1 j]
      ring
    rw [Finset.sum_congr rfl hint, if_pos (by omega : 1 < m + 2),
      if_pos (Or.inl rfl), if_pos (Or.inr rfl)]
    ring

theorem trapIntegralBatch_eq (k : α → α) (t_max : α) {n : ℕ} (p : List α)
    (hp : p.length < n) :
    trapIntegralBatch (K_matrix (fun m => ((uniqueTau t_max n).map k).getD m 0))
        (dtOf t_max n) p
      = trapIntegral (K_scalar k (dtOf t_max n)) (dtOf t_max n) p := by
  rcases Nat.eq_zero_or_pos p.length with h0 | h1
  · have hnil : p = [] := List.length_eq_zero.mp h0
    subst hnil
    simp [trapIntegralBatch, trapIntegral]
  · rw [trapIntegralBatch, trapIntegral]
    have hK0 : K_matrix (fun m => ((uniqueTau t_max n).map k).getD m 0)
        p.length 0 = K_scalar k (dtOf t_max n) p.length 0 :=
      Km_eq_Ks k t_max (Nat.zero_le _) hp
    have hKlast : K_matrix (fun m => ((uniqueTau t_max n).map k).getD m 0)
        p.length (p.length - 1)
        = K_scalar k (dtOf t_max n) p.length (p.length - 1) :=
      Km_eq_Ks k t_max (by omega) hp
    have hsum : (∑ j ∈ Finset.Ico 1 (p.length - 1),
        dtOf t_max n *
          K_matrix (fun m => ((uniqueTau t_max n).map k).getD m 0) p.length j *
          p.getD j 0)
        = ∑ j ∈ Finset.Ico 1 (p.length - 1),
            dtOf t_max n * K_scalar k (dtOf t_max n) p.length j * p.getD j 0 := by
      apply Finset.sum_congr rfl
      intro j hj
      have hj' := (Finset.mem_Ico.mp hj).2
      rw [Km_eq_Ks k t_max (by omega) hp]
    rw [hK0, hKlast, hsum]
    exact trap_sum_eq (fun j => K_scalar k (dtOf t_max n) p.length j)
      (fun j => p.getD j 0) (dtOf t_max n) h1

/-- C1 (amended).  For `method = "trapezoidal"` the batch solver (one batch
kernel evaluation on the `n` distinct lags, expanded into the triangular
matrix) and the scalar per-call solver return identical results — grid and
trajectory — for every kernel, `t_max`, `n_points` and `x0`, and each entry
of the expanded matrix equals the per-cell kernel value
`kernel(t[i] - t[j])`.  For `method = "simpson"` the two builds differ: the
batch build executes its rectangular rule instead of Simpson's rule (see
the counterexample). -/
theorem C1_trap_equivalence :
    ∀ (k : α → α) (t_max : α) (n : ℕ) (x0 : α),
      solve_volterra_batch (fun l => l.map k) t_max n x0 "trapezoidal"
        = solve_volterra_cpp k t_max n x0 "trapezoidal"
      ∧ ∀ i j : ℕ, j ≤ i → i < n →
          K_matrix (fun m => ((uniqueTau t_max n).map k).getD m 0) i j
            = K_scalar k (dtOf t_max n) i j := by
  intro k t_max n x0
  refine ⟨?_, fun i j hj hi => Km_eq_Ks k t_max hj hi⟩
  rw [solve_volterra_batch_map_trap, solve_volterra_cpp, if_pos rfl]
  suffices h : batchTrapX (fun m => ((uniqueTau t_max n).map k).getD m 0)
      (dtOf t_max n) n x0 = scalarTrapX k t_max n x0 by rw [h]
  rw [batchTrapX, scalarTrapX]
  exact buildX_congr
    (fun p hp => by rw [nextX, nextX, trapIntegralBatch_eq k t_max p hp]) n le_rfl

/-- C1 witness: the trapezoidal equivalence at the identity kernel,
`t_max = 1`, `n_points = 3`, `x0 = 1`, and the matrix-expansion equality at
entry `(i, j) = (2, 1)`. -/
theorem C1_trap_equivalence_witness :
    solve_volterra_batch (fun l => l.map (fun x : ℚ => x)) 1 3 1 "trapezoidal"
      = solve_volterra_cpp (fun x : ℚ => x) 1 3 1 "trapezoidal"
    ∧ K_matrix (fun m => ((uniqueTau (1 : ℚ) 3).map (fun x : ℚ => x)).getD m 0) 2 1
        = K_scalar (fun x : ℚ => x) (dtOf (1 : ℚ) 3) 2 1 :=
  ⟨(C1_trap_equivalence (fun x : ℚ => x) 1 3 1).1,
   (C1_trap_equivalence (fun x : ℚ => x) 1 3 1).2 2 1 (by norm_num) (by norm_num)⟩

/-- C1 counterexample: for `method = "simpson"` the two solvers disagree.
With the constant kernel `K ≡ 1`, `t_max = 3`, `n_points = 4`, `x0 = 1`
(`dt = 1`), the scalar build returns the Simpson/trapezoidal-fallback
trajectory `[1, 1/2, -1/6, 1/12]` while the batch build runs its
rectangular rule and returns `[1, 0, 0, 0]`. -/
theorem C1_counterexample :
    solve_volterra_batch (fun l => l.map (fun _ : ℚ => 1)) 3 4 1 "simpson"
      ≠ solve_volterra_cpp (fun _ : ℚ => 1) 3 4 1 "simpson" := by
  have hb : solve_volterra_batch (fun l => l.map (fun _ : ℚ => 1)) 3 4 1 "simpson"
      = .ok ([0, 1, 2, 3], [1, 0, 0, 0]) := by
    rw [solve_volterra_batch_map_rect _ _ _ _ (by decide)]
    norm_num [generate_time_grid, batchRectX, buildX, nextX, rectIntegralBatch,
      K_matrix, uniqueTau, dtOf, Finset.sum_range_succ, List.getD,
      List.range_succ]
  have hs : solve_volterra_cpp (fun _ : ℚ => 1) 3 4 1 "simpson"
      = .ok ([0, 1, 2, 3], [1, 1/2, -1/6, 1/12]) := by
    rw [solve_volterra_cpp, if_neg (by decide), if_pos rfl]
    norm_num [generate_time_grid, scalarSimpX, buildX, nextX, simpsonIntegral,
      trapIntegral, K_scalar, dtOf, Finset.sum_Ico_eq_sum_range,
      Finset.sum_range_succ, List.getD, List.range_succ]
  rw [hb, hs]
  intro hcontra
  simp only [Except.ok.injEq, Prod.mk.injEq, List.cons.injEq] at hcontra
  norm_num at hcontra

end KernelExperience
